import Mathlib

/-!
Verification development for `grep_wrapper` (src/main.rs), a stream-oriented
line reformatter: each stdin line is matched against the regex
`(?:[^:/]+/?([^:]+):)?([^:]+)(?::(\d+))?(?::(\d+))?:\s*(.*)` (unanchored,
leftmost-first semantics of the `regex` crate); a matching line is turned into
a `GrepLike` record and rewritten (path prefixing, `pathdiff::diff_paths`
relative-path resolution, optional existence filter, optional highlight);
a non-matching line is echoed verbatim.

Modelling conventions:
  * Strings are `List Char` (Rust strings are UTF-8; the claims only involve
    character-level content, so byte indices and char indices agree on the
    inputs considered).  Terminal colours (`colored`) are cosmetic ANSI
    wrapping depending on tty detection and are modelled as identity on text;
    highlight structure is kept as a `Span` list so the partition property can
    be stated.  Trailing newlines written by `writeln!`/`println!` are left
    implicit: outputs are one `List Char` per emitted line.
  * Paths follow Unix `std::path` component parsing.  `OsStr` payloads are
    either UTF-8 text or raw bytes, so that `Path::to_str` (which fails on
    non-UTF-8) is representable; paths parsed from Rust `String`s only ever
    contain UTF-8 payloads.
  * The filesystem is an oracle `fileOpens : List Component → Bool` telling
    whether `std::fs::File::open` on a path succeeds.
  * Rust character classes: `\d` is modelled by ASCII `0-9` (the Unicode `Nd`
    class restricted to the inputs of interest), `\s` by the regex crate's
    White_Space set, `.` by "any char except newline".
-/

namespace GrepWrapper

/-- An `OsStr` payload of a path component: valid UTF-8 text, or raw bytes that
are not valid UTF-8 (representable on Unix, e.g. in the current directory). -/
inductive OsStr where
  | utf8 (s : List Char)
  | raw (bs : List Nat)
deriving DecidableEq

/-- A `std::path::Component` (Unix): root `/`, `.`, `..`, or a normal segment. -/
inductive Component where
  | rootDir
  | curDir
  | parentDir
  | normal (s : OsStr)
deriving DecidableEq

/-- Split a character list at `/` separators (keeping empty segments). -/
def splitSlash : List Char → List (List Char)
  | [] => [[]]
  | '/' :: r => [] :: splitSlash r
  | c :: r =>
    match splitSlash r with
    | s :: ss => (c :: s) :: ss
    | [] => [[c]]

/-- Parse `Path::components` of a Unix path given as text: a leading `/` is
`rootDir`; a leading `.` segment is `curDir`; empty and interior `.` segments
are dropped; `..` segments are `parentDir`. -/
def pathComponents (s : List Char) : List Component :=
  let parts := (splitSlash s).filter fun p => decide (p ≠ []) && decide (p ≠ ['.'])
  let root : Bool := decide (s.head? = some '/')
  let cur : Bool := !root && (decide (s = ['.']) || decide (s.take 2 = ['.', '/']))
  ((if root then [Component.rootDir] else []) ++
      (if cur then [Component.curDir] else [])) ++
    parts.map fun p =>
      if p = ['.', '.'] then Component.parentDir else Component.normal (OsStr.utf8 p)

/-- Predicate `Path::is_absolute` on Unix: the path has a root. -/
def isAbsolute (cs : List Component) : Bool :=
  decide (cs.head? = some Component.rootDir)

/-- The component-walking loop of `pathdiff::diff_paths`, with the
accumulated output components as third argument. -/
def diffLoop : List Component → List Component → List Component →
    Option (List Component)
  | [], [], comps => some comps
  | a :: ita, [], comps => some (comps ++ a :: ita)
  | [], _ :: itb, comps => diffLoop [] itb (comps ++ [Component.parentDir])
  | a :: ita, b :: itb, comps =>
    if comps = [] ∧ a = b then diffLoop ita itb comps
    else if b = Component.curDir then diffLoop ita itb (comps ++ [a])
    else if b = Component.parentDir then none
    else
      some (comps ++ [Component.parentDir] ++ itb.map (fun _ => Component.parentDir)
        ++ a :: ita)

/-- Model of `pathdiff::diff_paths path base`: if exactly one of the two is absolute,
the result is `path` itself when `path` is absolute and undefined otherwise;
else walk the components. -/
def diff_paths (path base : List Component) : Option (List Component) :=
  if isAbsolute path ≠ isAbsolute base then
    if isAbsolute path then some path else none
  else
    diffLoop path base []

/-- Text of one component for `Path::to_str`; fails on a non-UTF-8 payload.
(`rootDir` only ever occurs leading in the paths produced here; its text is
the leading `/` added by `pathToStr?`.) -/
def renderComp? : Component → Option (List Char)
  | Component.rootDir => some []
  | Component.curDir => some ['.']
  | Component.parentDir => some ['.', '.']
  | Component.normal (OsStr.utf8 s) => some s
  | Component.normal (OsStr.raw _) => none

/-- Render every element, failing if any single rendering fails. -/
def optMapAll (f : α → Option β) : List α → Option (List β)
  | [] => some []
  | a :: as =>
    match f a, optMapAll f as with
    | some b, some bs => some (b :: bs)
    | _, _ => none

/-- Interleave `/` separators. -/
def joinSlash : List (List Char) → List Char
  | [] => []
  | [p] => p
  | p :: ps => p ++ '/' :: joinSlash ps

/-- Model of `PathBuf::to_str` for a component list (collected the way
`diff_paths` collects its result): `some` text iff every component is UTF-8. -/
def pathToStr? (cs : List Component) : Option (List Char) :=
  match cs with
  | Component.rootDir :: rest =>
    (optMapAll renderComp? rest).map fun ps => '/' :: joinSlash ps
  | _ => (optMapAll renderComp? cs).map joinSlash

/-! ## The line-recognition regex

`(?:[^:/]+/?([^:]+):)?([^:]+)(?::(\d+))?(?::(\d+))?:\s*(.*)` with the
leftmost-first (Perl-style preference) match semantics of the `regex` crate:
greedy pieces try longest first, an optional group is tried before being
skipped, and backtracking runs through the whole continuation. -/

/-- Class `[^:]`. -/
def notColon (c : Char) : Bool := c != ':'

/-- Class `[^:/]`. -/
def notColonSlash (c : Char) : Bool := c != ':' && c != '/'

/-- Class `\d` (ASCII decimal digits). -/
def isDigitCh (c : Char) : Bool := '0' ≤ c && c ≤ '9'

/-- Class `\s` — the White_Space set used by the regex crate. -/
def isWs (c : Char) : Bool :=
  let n := c.toNat
  (0x9 ≤ n && n ≤ 0xD) || n == 0x20 || n == 0x85 || n == 0xA0 || n == 0x1680 ||
    (0x2000 ≤ n && n ≤ 0x200A) || n == 0x2028 || n == 0x2029 || n == 0x202F ||
    n == 0x205F || n == 0x3000

/-- All ways a greedy repetition of a one-char class `p` (at least `lo`
repetitions) can split `s`, in backtracking preference order: the longest
consumed prefix first. -/
def greedySplits (p : Char → Bool) (lo : Nat) (s : List Char) :
    List (List Char × List Char) :=
  let m := (s.takeWhile p).length
  (((List.range (m + 1)).reverse).filter fun i => lo ≤ i).map fun i =>
    (s.take i, s.drop i)

/-- Alternatives for `/?` in preference order: consume the slash first when there is one. -/
def slashOpt : List Char → List (List Char)
  | '/' :: r => [r, '/' :: r]
  | s => [s]

/-- Alternatives for `(?::(\d+))?` in preference order: take the group (longest digit run
first), lastly skip it.  Each alternative pairs the captured digits (if any)
with the rest of the input. -/
def matchNum (s : List Char) : List (Option (List Char) × List Char) :=
  (match s with
   | ':' :: r => (greedySplits isDigitCh 1 r).map fun pr => (some pr.1, pr.2)
   | _ => []) ++ [(none, s)]

/-- The struct built from the regex captures (src/main.rs lines 9-16 and
111-117).  The field `pfix` embeds the source field `prefix` (a Lean keyword). -/
structure GrepLike where
  pfix : Option (List Char)
  filepath : List Char
  row : Option (List Char)
  column : Option (List Char)
  contents : List Char
deriving DecidableEq

/-- The tail `:\s*(.*)` of the regex: a literal colon, greedy whitespace, then
the rest of the line (any chars up to a newline) as `contents`. -/
def matchEnd (px : Option (List Char)) (fp : List Char) (row col : Option (List Char))
    (s : List Char) : Option GrepLike :=
  match s with
  | ':' :: r =>
    some ⟨px, fp, row, col, (r.dropWhile isWs).takeWhile fun c => c != '\n'⟩
  | _ => none

/-- Match `([^:]+)(?::(\d+))?(?::(\d+))?:\s*(.*)` — everything after the optional
leading group, with `px` the capture of that group (if it matched). -/
def matchBody (px : Option (List Char)) (s : List Char) : Option GrepLike :=
  (greedySplits notColon 1 s).findSome? fun fpRest =>
    (matchNum fpRest.2).findSome? fun rowRest =>
      (matchNum rowRest.2).findSome? fun colRest =>
        matchEnd px fpRest.1 rowRest.1 colRest.1 colRest.2

/-- The attempt that takes the optional leading group `(?:[^:/]+/?([^:]+):)`
(capturing the inner `([^:]+)`), then the body. -/
def matchPfxGroup (s : List Char) : Option GrepLike :=
  (greedySplits notColonSlash 1 s).findSome? fun aRest =>
    (slashOpt aRest.2).findSome? fun s2 =>
      (greedySplits notColon 1 s2).findSome? fun gRest =>
        match gRest.2 with
        | ':' :: r => matchBody (some gRest.1) r
        | _ => none

/-- Match the whole regex anchored at the start of `s`: the optional group is
preferred, falling back to the body alone. -/
def matchFrom (s : List Char) : Option GrepLike :=
  match matchPfxGroup s with
  | some g => some g
  | none => matchBody none s

/-- Search semantics: `Regex::captures` is unanchored: find the leftmost position where the
pattern matches.  Returns the skipped characters before the match together
with the captures. -/
def findCaps : List Char → Option (List Char × GrepLike)
  | [] => (matchFrom []).map fun g => ([], g)
  | c :: rest =>
    match matchFrom (c :: rest) with
    | some g => some ([], g)
    | none => (findCaps rest).map fun pr => (c :: pr.1, pr.2)

/-! ## Writing (GrepLike::write, src/main.rs lines 19-62) -/

/-- The two `unwrap`s that can abort line processing: `diff_paths(..).unwrap()`
on `None`, and `rel_filepath.to_str().unwrap()` on a non-UTF-8 path. -/
inductive PanicKind where
  | diffPathsNone
  | toStrNone
deriving DecidableEq

instance exceptDecEq {ε α : Type} [DecidableEq ε] [DecidableEq α] :
    DecidableEq (Except ε α)
  | Except.error a, Except.error b =>
    if h : a = b then isTrue (by rw [h]) else isFalse fun hc => h (Except.error.inj hc)
  | Except.error _, Except.ok _ => isFalse Except.noConfusion
  | Except.ok _, Except.error _ => isFalse Except.noConfusion
  | Except.ok a, Except.ok b =>
    if h : a = b then isTrue (by rw [h]) else isFalse fun hc => h (Except.ok.inj hc)

/-- The concatenation on src/main.rs lines 27-32 building the path handed to
`diff_paths`: the four cases over the line's own captured `prefix` and the
configured extra one. -/
def concatPath (px extra : Option (List Char)) (filepath : List Char) : List Char :=
  match px, extra with
  | some p, some e => e ++ p ++ ['/'] ++ filepath
  | some p, none => p ++ ['/'] ++ filepath
  | none, some e => e ++ filepath
  | none, none => filepath

/-- One piece of the written message body: plain text, or a highlighted match
(rendered red in the source; the colouring is cosmetic). -/
inductive Span where
  | plain (s : List Char)
  | hl (s : List Char)
deriving DecidableEq

/-- The text under a span. -/
def spanText : Span → List Char
  | Span.plain s => s
  | Span.hl s => s

/-- Concatenated text of a span list, i.e. the bytes actually written. -/
def spansJoin (l : List Span) : List Char :=
  (l.map spanText).flatten

/-- The `captures_iter` loop of src/main.rs lines 50-57: `off` is the source's
`offset` variable, `ms` the remaining matches as half-open index ranges.
Unmatched text since the previous match is written plain, each match
highlighted, and the tail after the last match plain. -/
def hlLoop (contents : List Char) : Nat → List (Nat × Nat) → List Span
  | off, [] => [Span.plain (contents.drop off)]
  | off, (s, e) :: ms =>
    Span.plain ((contents.drop off).take (s - off)) ::
      Span.hl ((contents.drop s).take (e - s)) :: hlLoop contents e ms

/-- A compiled highlight regex is modelled by its match function: the list of
non-overlapping match ranges `captures_iter` yields on a given text (in order,
each range inside the text). -/
def Matcher : Type := List Char → List (Nat × Nat)

/-- The `match highlight` on src/main.rs lines 48-60: with a pattern, run the
highlight loop over its matches; without one, write `contents` verbatim. -/
def renderContents (hl : Option Matcher) (contents : List Char) : List Span :=
  match hl with
  | some re => hlLoop contents 0 (re contents)
  | none => [Span.plain contents]

/-- Model of `GrepLike::write`: build the concatenated path, resolve it against
`current_dir` via `diff_paths` (panicking on `None`), optionally drop the line
when the file cannot be opened, then emit
`"<rel>:<row or 0>:<col or 0>: <contents with highlights>"`.
`.ok none` is a line suppressed by the existence check; `.ok (some out)` is an
emitted line (without its trailing newline). -/
def GrepLike.write (g : GrepLike) (extra : Option (List Char)) (hl : Option Matcher)
    (current_dir : List Component) (check_exists : Bool)
    (fileOpens : List Component → Bool) : Except PanicKind (Option (List Char)) :=
  match diff_paths (pathComponents (concatPath g.pfix extra g.filepath)) current_dir with
  | none => Except.error PanicKind.diffPathsNone
  | some rel =>
    if check_exists && !fileOpens rel then Except.ok none
    else
      match pathToStr? rel with
      | none => Except.error PanicKind.toStrNone
      | some rs =>
        Except.ok (some (rs ++ [':'] ++ g.row.getD ['0'] ++ [':'] ++
          g.column.getD ['0'] ++ [':', ' '] ++ spansJoin (renderContents hl g.contents)))

/-! ## The per-line driver (src/main.rs lines 110-128) -/

/-- Handle one input line: when the regex finds a match, build the `GrepLike`
from the captures and write it; otherwise `println!` the line verbatim. -/
def processLine (line : List Char) (extra : Option (List Char)) (hl : Option Matcher)
    (current_dir : List Component) (check_exists : Bool)
    (fileOpens : List Component → Bool) : Except PanicKind (Option (List Char)) :=
  match findCaps line with
  | some (_, g) => g.write extra hl current_dir check_exists fileOpens
  | none => Except.ok (some line)

/-- The stdin loop: process lines in order, collecting the emitted output
lines; a panic aborts the whole run, keeping the lines emitted before it. -/
def runMain (lines : List (List Char)) (extra : Option (List Char)) (hl : Option Matcher)
    (current_dir : List Component) (check_exists : Bool)
    (fileOpens : List Component → Bool) : List (List Char) × Option PanicKind :=
  match lines with
  | [] => ([], none)
  | l :: rest =>
    match processLine l extra hl current_dir check_exists fileOpens with
    | Except.error k => ([], some k)
    | Except.ok none => runMain rest extra hl current_dir check_exists fileOpens
    | Except.ok (some out) =>
      let r := runMain rest extra hl current_dir check_exists fileOpens
      (out :: r.1, r.2)

/-- The shape `captures_iter` guarantees for its match ranges on `contents`,
starting the scan at offset `off`: each range starts no earlier than the
current offset, is well-formed, ends within the text, and the scan resumes at
its end. -/
def validMatches (contents : List Char) : Nat → List (Nat × Nat) → Bool
  | _, [] => true
  | off, (s, e) :: ms =>
    decide (off ≤ s) && decide (s ≤ e) && decide (e ≤ contents.length) &&
      validMatches contents e ms

/-! ## Helper lemmas -/

lemma drop_split (l : List Char) {a b : Nat} (h : a ≤ b) :
    l.drop a = (l.drop a).take (b - a) ++ l.drop b := by
  have h2 : (l.drop a).drop (b - a) = l.drop b := by
    rw [List.drop_drop, Nat.add_sub_cancel' h]
  conv_lhs => rw [← List.take_append_drop (b - a) (l.drop a)]
  rw [h2]

lemma hlLoop_join (contents : List Char) :
    ∀ (ms : List (Nat × Nat)) (off : Nat),
      validMatches contents off ms = true →
      spansJoin (hlLoop contents off ms) = contents.drop off := by
  intro ms
  induction ms with
  | nil =>
    intro off _
    simp [hlLoop, spansJoin, spanText]
  | cons m ms ih =>
    intro off hv
    obtain ⟨s, e⟩ := m
    simp only [validMatches, Bool.and_eq_true, decide_eq_true_eq] at hv
    obtain ⟨⟨⟨h1, h2⟩, _⟩, hrest⟩ := hv
    simp only [hlLoop, spansJoin, List.map_cons, List.flatten_cons, spanText]
    have ht : spansJoin (hlLoop contents e ms) = contents.drop e := ih e hrest
    simp only [spansJoin] at ht
    rw [ht]
    conv_rhs => rw [drop_split contents h1, drop_split contents h2]

lemma optMapAll_isSome {f : α → Option β} :
    ∀ {l : List α}, (∀ a ∈ l, (f a).isSome) → (optMapAll f l).isSome := by
  intro l
  induction l with
  | nil => intro _; rfl
  | cons a as ih =>
    intro h
    have ha : (f a).isSome := h a (by simp)
    have has : (optMapAll f as).isSome := ih fun x hx => h x (by simp [hx])
    obtain ⟨b, hb⟩ := Option.isSome_iff_exists.mp ha
    obtain ⟨bs, hbs⟩ := Option.isSome_iff_exists.mp has
    simp [optMapAll, hb, hbs]

lemma pathToStr_isSome {cs : List Component}
    (h : ∀ c ∈ cs, (renderComp? c).isSome) : (pathToStr? cs).isSome := by
  match cs with
  | [] => rfl
  | Component.rootDir :: rest =>
    have : (optMapAll renderComp? rest).isSome :=
      optMapAll_isSome fun c hc => h c (List.mem_cons_of_mem _ hc)
    obtain ⟨ps, hps⟩ := Option.isSome_iff_exists.mp this
    simp [pathToStr?, hps]
  | Component.curDir :: rest =>
    obtain ⟨ps, hps⟩ := Option.isSome_iff_exists.mp (optMapAll_isSome h)
    simp [pathToStr?, hps]
  | Component.parentDir :: rest =>
    obtain ⟨ps, hps⟩ := Option.isSome_iff_exists.mp (optMapAll_isSome h)
    simp [pathToStr?, hps]
  | Component.normal o :: rest =>
    obtain ⟨ps, hps⟩ := Option.isSome_iff_exists.mp (optMapAll_isSome h)
    simp [pathToStr?, hps]

lemma renderComp_pathComponents {s : List Char} {c : Component}
    (h : c ∈ pathComponents s) : (renderComp? c).isSome := by
  unfold pathComponents at h
  simp only [List.mem_append, List.mem_map, List.mem_filter] at h
  rcases h with (h | h) | ⟨p, _, rfl⟩
  · split at h
    · simp only [List.mem_singleton] at h
      subst h; rfl
    · simp at h
  · split at h
    · simp only [List.mem_singleton] at h
      subst h; rfl
    · simp at h
  · split <;> rfl

lemma diffLoop_mem :
    ∀ (l2 l1 acc out : List Component), diffLoop l1 l2 acc = some out →
      ∀ c ∈ out, c ∈ acc ∨ c ∈ l1 ∨ c = Component.parentDir := by
  intro l2
  induction l2 with
  | nil =>
    intro l1 acc out h c hc
    match l1 with
    | [] =>
      simp only [diffLoop, Option.some.injEq] at h
      subst h; exact Or.inl hc
    | a :: ita =>
      simp only [diffLoop, Option.some.injEq] at h
      subst h
      rcases List.mem_append.mp hc with h1 | h1
      · exact Or.inl h1
      · exact Or.inr (Or.inl h1)
  | cons b itb ih =>
    intro l1 acc out h c hc
    match l1 with
    | [] =>
      simp only [diffLoop] at h
      rcases ih [] (acc ++ [Component.parentDir]) out h c hc with h1 | h1 | h1
      · rcases List.mem_append.mp h1 with h2 | h2
        · exact Or.inl h2
        · simp only [List.mem_singleton] at h2
          exact Or.inr (Or.inr h2)
      · simp at h1
      · exact Or.inr (Or.inr h1)
    | a :: ita =>
      simp only [diffLoop] at h
      split at h
      · rcases ih ita acc out h c hc with h1 | h1 | h1
        · exact Or.inl h1
        · exact Or.inr (Or.inl (List.mem_cons_of_mem a h1))
        · exact Or.inr (Or.inr h1)
      · split at h
        · rcases ih ita (acc ++ [a]) out h c hc with h1 | h1 | h1
          · rcases List.mem_append.mp h1 with h2 | h2
            · exact Or.inl h2
            · simp only [List.mem_singleton] at h2
              rw [h2]
              exact Or.inr (Or.inl (List.mem_cons_self a ita))
          · exact Or.inr (Or.inl (List.mem_cons_of_mem a h1))
          · exact Or.inr (Or.inr h1)
        · split at h
          · exact absurd h (by simp)
          · simp only [Option.some.injEq] at h
            subst h
            rcases List.mem_append.mp hc with h1 | h1
            · rcases List.mem_append.mp h1 with h2 | h2
              · rcases List.mem_append.mp h2 with h3 | h3
                · exact Or.inl h3
                · simp only [List.mem_singleton] at h3
                  exact Or.inr (Or.inr h3)
              · rcases List.mem_map.mp h2 with ⟨_, _, h3⟩
                exact Or.inr (Or.inr h3.symm)
            · exact Or.inr (Or.inl h1)

/-- The components of a successful `diff_paths` against a text-parsed path are
all renderable by `to_str`: they come from the parsed path or are `..`. -/
lemma diff_pathToStr {s : List Char} {base rel : List Component}
    (h : diff_paths (pathComponents s) base = some rel) :
    (pathToStr? rel).isSome := by
  unfold diff_paths at h
  split at h
  · split at h
    · obtain rfl := Option.some.inj h
      exact pathToStr_isSome fun c hc => renderComp_pathComponents hc
    · exact absurd h (by simp)
  · refine pathToStr_isSome fun c hc => ?_
    rcases diffLoop_mem base (pathComponents s) [] rel h c hc with h1 | h1 | h1
    · simp at h1
    · exact renderComp_pathComponents h1
    · subst h1; rfl

/-- Lemma: `findCaps` splits its input into the skipped characters and the suffix on
which the pattern matches anchored. -/
lemma findCaps_decomp :
    ∀ {l sk : List Char} {g : GrepLike}, findCaps l = some (sk, g) →
      ∃ t, l = sk ++ t ∧ matchFrom t = some g := by
  intro l
  induction l with
  | nil =>
    intro sk g h
    simp only [findCaps] at h
    cases hm : matchFrom [] with
    | none => rw [hm] at h; simp at h
    | some g0 =>
      rw [hm] at h
      simp only [Option.map_some', Option.some.injEq, Prod.mk.injEq] at h
      obtain ⟨rfl, rfl⟩ := h
      exact ⟨[], rfl, hm⟩
  | cons c rest ih =>
    intro sk g h
    simp only [findCaps] at h
    cases hm : matchFrom (c :: rest) with
    | some g0 =>
      rw [hm] at h
      simp only [Option.some.injEq, Prod.mk.injEq] at h
      obtain ⟨rfl, rfl⟩ := h
      exact ⟨c :: rest, rfl, hm⟩
    | none =>
      rw [hm] at h
      cases hr : findCaps rest with
      | none => rw [hr] at h; simp at h
      | some pr =>
        rw [hr] at h
        simp only [Option.map_some', Option.some.injEq] at h
        obtain ⟨sk0, g0⟩ := pr
        simp only [Prod.mk.injEq] at h
        obtain ⟨rfl, rfl⟩ := h
        obtain ⟨t, ht, hmt⟩ := ih hr
        exact ⟨t, by rw [List.cons_append, ← ht], hmt⟩

/-- If the search fails, the pattern matches at no start position. -/
lemma findCaps_none_matchFrom :
    ∀ {l : List Char}, findCaps l = none → ∀ i, matchFrom (l.drop i) = none := by
  intro l
  induction l with
  | nil =>
    intro h i
    simp only [findCaps] at h
    cases hm : matchFrom [] with
    | none => simpa [List.drop_nil] using hm
    | some g0 => rw [hm] at h; exact absurd h (by simp)
  | cons c rest ih =>
    intro h i
    simp only [findCaps] at h
    cases hm : matchFrom (c :: rest) with
    | some g0 => rw [hm] at h; exact absurd h (by simp)
    | none =>
      rw [hm] at h
      have hr : findCaps rest = none := by
        cases hr : findCaps rest with
        | none => rfl
        | some pr => rw [hr] at h; exact absurd h (by simp)
      cases i with
      | zero => exact hm
      | succ j => exact ih hr j

lemma write_diff_none {g : GrepLike} {extra : Option (List Char)} {hl : Option Matcher}
    {cwd : List Component} {ce : Bool} {fo : List Component → Bool}
    (h : diff_paths (pathComponents (concatPath g.pfix extra g.filepath)) cwd = none) :
    g.write extra hl cwd ce fo = Except.error PanicKind.diffPathsNone := by
  unfold GrepLike.write
  rw [h]

lemma processLine_found {line sk : List Char} {g : GrepLike}
    (h : findCaps line = some (sk, g)) (extra : Option (List Char)) (hl : Option Matcher)
    (cwd : List Component) (ce : Bool) (fo : List Component → Bool) :
    processLine line extra hl cwd ce fo = g.write extra hl cwd ce fo := by
  unfold processLine
  rw [h]

lemma processLine_notFound {line : List Char} (h : findCaps line = none)
    (extra : Option (List Char)) (hl : Option Matcher) (cwd : List Component)
    (ce : Bool) (fo : List Component → Bool) :
    processLine line extra hl cwd ce fo = Except.ok (some line) := by
  unfold processLine
  rw [h]

lemma diff_relAbs_none (p : List Char) (base : List Component)
    (hp : isAbsolute (pathComponents p) = false) (hb : isAbsolute base = true) :
    diff_paths (pathComponents p) base = none := by
  unfold diff_paths
  rw [hp, hb]
  simp

/-- Case analysis of `GrepLike::write` when `diff_paths` succeeds: the line's
text-built path renders, so the result is the formatted line — or a silent
drop exactly when the existence check is on and the open fails. -/
lemma write_diff_some {g : GrepLike} {extra : Option (List Char)}
    {cwd rel : List Component} (hl : Option Matcher) (fo : List Component → Bool)
    (h : diff_paths (pathComponents (concatPath g.pfix extra g.filepath)) cwd = some rel) :
    ∃ rs, pathToStr? rel = some rs ∧
      ∀ ce, g.write extra hl cwd ce fo =
        if ce && !fo rel then Except.ok none
        else Except.ok (some (rs ++ [':'] ++ g.row.getD ['0'] ++ [':'] ++
          g.column.getD ['0'] ++ [':', ' '] ++ spansJoin (renderContents hl g.contents))) := by
  obtain ⟨rs, hrs⟩ := Option.isSome_iff_exists.mp (diff_pathToStr h)
  refine ⟨rs, hrs, fun ce => ?_⟩
  unfold GrepLike.write
  rw [h]
  by_cases hce : ce && !fo rel
  · simp [hce]
  · simp only [hce, if_neg, Bool.false_eq_true, reduceIte, hrs]

/-- Relating one line's processing under the two existence-check settings:
either both runs panic identically, or the unchecked run emits a line and the
checked run emits the same line or silently drops it. -/
lemma processLine_check (l : List Char) (extra : Option (List Char)) (hl : Option Matcher)
    (cwd : List Component) (fo : List Component → Bool) :
    (∃ k, processLine l extra hl cwd true fo = Except.error k
        ∧ processLine l extra hl cwd false fo = Except.error k)
    ∨ (∃ out, processLine l extra hl cwd false fo = Except.ok (some out)
        ∧ (processLine l extra hl cwd true fo = Except.ok (some out)
            ∨ processLine l extra hl cwd true fo = Except.ok none)) := by
  cases hf : findCaps l with
  | none =>
    refine Or.inr ⟨l, processLine_notFound hf extra hl cwd false fo, Or.inl ?_⟩
    exact processLine_notFound hf extra hl cwd true fo
  | some pr =>
    obtain ⟨sk, g⟩ := pr
    rw [processLine_found hf extra hl cwd true fo,
      processLine_found hf extra hl cwd false fo]
    cases hd : diff_paths (pathComponents (concatPath g.pfix extra g.filepath)) cwd with
    | none => exact Or.inl ⟨PanicKind.diffPathsNone, write_diff_none hd, write_diff_none hd⟩
    | some rel =>
      obtain ⟨rs, _, hw⟩ := write_diff_some hl fo hd
      refine Or.inr ⟨rs ++ [':'] ++ g.row.getD ['0'] ++ [':'] ++ g.column.getD ['0'] ++
        [':', ' '] ++ spansJoin (renderContents hl g.contents), ?_, ?_⟩
      · rw [hw false]
        simp
      · rw [hw true]
        cases hfo : fo rel with
        | true => simp
        | false => simp

/-! ## Claims -/

/-- C1: the display path of a recognized line is resolved against
`current_dir` by `diff_paths`; when no relative path can be computed, the
`unwrap` on src/main.rs line 34 panics — a fatal condition for the line, never
a silent skip or fallback: the write aborts, and a run reaching such a line
stops emitting nothing for it or any later line. -/
theorem c1_diff_none_fatal (g : GrepLike) (extra : Option (List Char))
    (hl : Option Matcher) (cwd : List Component) (ce : Bool)
    (fo : List Component → Bool)
    (h : diff_paths (pathComponents (concatPath g.pfix extra g.filepath)) cwd = none) :
    g.write extra hl cwd ce fo = Except.error PanicKind.diffPathsNone
    ∧ ∀ (line sk : List Char), findCaps line = some (sk, g) →
        ∀ rest, runMain (line :: rest) extra hl cwd ce fo
          = ([], some PanicKind.diffPathsNone) := by
  refine ⟨write_diff_none h, fun line sk hfind rest => ?_⟩
  have hp : processLine line extra hl cwd ce fo = Except.error PanicKind.diffPathsNone := by
    rw [processLine_found hfind extra hl cwd ce fo]
    exact write_diff_none h
  unfold runMain
  rw [hp]

/-- Witness for C1: the line `a: x` is recognized with filepath `a`; the
concatenated path is relative while the working directory `/` is absolute, so
`diff_paths` yields nothing and the run aborts with no output. -/
theorem c1_diff_none_fatal_w :
    diff_paths (pathComponents (concatPath none none "a".toList)) [Component.rootDir] = none
    ∧ GrepLike.write ⟨none, "a".toList, none, none, "x".toList⟩ none none
        [Component.rootDir] false (fun _ => true) = Except.error PanicKind.diffPathsNone
    ∧ runMain ["a: x".toList] none none [Component.rootDir] false (fun _ => true)
        = ([], some PanicKind.diffPathsNone) := by
  have h := c1_diff_none_fatal ⟨none, "a".toList, none, none, "x".toList⟩ none none
    [Component.rootDir] false (fun _ => true) (by decide)
  exact ⟨by decide, h.1, h.2 "a: x".toList [] (by decide) []⟩

/-- C2: the concatenated path follows exactly the 4-case table of src/main.rs
lines 27-32 (no separators beyond the single `/` between a captured line
prefix and the filepath), and on the spec instance prefix `sub`, extra prefix
`root/`, filepath `a.txt` it yields `root/sub/a.txt`. -/
theorem c2_concat_table :
    (∀ p e f : List Char,
      concatPath (some p) (some e) f = e ++ p ++ ['/'] ++ f
      ∧ concatPath (some p) none f = p ++ ['/'] ++ f
      ∧ concatPath none (some e) f = e ++ f
      ∧ concatPath none none f = f)
    ∧ concatPath (some "sub".toList) (some "root/".toList) "a.txt".toList
      = "root/sub/a.txt".toList :=
  ⟨fun _ _ _ => ⟨rfl, rfl, rfl, rfl⟩, by decide⟩

/-- C3 counterexample: on input `src/lib.rs:42:7: unused variable` with no
extra prefix, no highlight, existence check off and the (absolute) repository
root `/repo` as working directory, the program does not emit
`./src/lib.rs:42:7: unused variable` — or any line at all: it panics, because
the leftmost-first regex match makes the concatenated path the relative
`lib.rs/42`, for which `diff_paths` against an absolute directory has no
result. -/
theorem c3_example_cex :
    processLine "src/lib.rs:42:7: unused variable".toList none none
        (pathComponents "/repo".toList) false (fun _ => true)
      = Except.error PanicKind.diffPathsNone
    ∧ ∀ out, processLine "src/lib.rs:42:7: unused variable".toList none none
        (pathComponents "/repo".toList) false (fun _ => true) ≠ Except.ok (some out) := by
  have h : processLine "src/lib.rs:42:7: unused variable".toList none none
      (pathComponents "/repo".toList) false (fun _ => true)
      = Except.error PanicKind.diffPathsNone := by decide
  exact ⟨h, fun out hc => by rw [h] at hc; exact Except.noConfusion hc⟩

/-- C3 amended: the input line is recognized, but the regex splits it as
prefix `lib.rs`, filepath `42`, row `7`, column absent, message
`unused variable`; the concatenated path `lib.rs/42` is relative, so against
any absolute working directory (such as a repository root) no relative path
exists and processing the line is fatal: the process panics and the line
claimed by the spec is never emitted. -/
theorem c3_example_amended (cwd : List Component) (fo : List Component → Bool)
    (habs : isAbsolute cwd = true) :
    findCaps "src/lib.rs:42:7: unused variable".toList
      = some ([], ⟨some "lib.rs".toList, "42".toList, some "7".toList, none,
          "unused variable".toList⟩)
    ∧ processLine "src/lib.rs:42:7: unused variable".toList none none cwd false fo
      = Except.error PanicKind.diffPathsNone := by
  have hfind : findCaps "src/lib.rs:42:7: unused variable".toList
      = some ([], (⟨some "lib.rs".toList, "42".toList, some "7".toList, none,
          "unused variable".toList⟩ : GrepLike)) := by decide
  refine ⟨hfind, ?_⟩
  rw [processLine_found hfind none none cwd false fo]
  exact write_diff_none (diff_relAbs_none (concatPath (some "lib.rs".toList) none
    "42".toList) cwd (by decide) habs)

/-- Witness for C3 amended, at the concrete absolute directory `/repo`. -/
theorem c3_example_amended_w :
    isAbsolute (pathComponents "/repo".toList) = true
    ∧ processLine "src/lib.rs:42:7: unused variable".toList none none
        (pathComponents "/repo".toList) false (fun _ => false)
      = Except.error PanicKind.diffPathsNone :=
  ⟨by decide,
    (c3_example_amended (pathComponents "/repo".toList) (fun _ => false) (by decide)).2⟩

/-- C4 counterexample: the dichotomy "full match, or echoed verbatim" fails.
The line `:/a:b` does not match the grammar at its start (so in particular
does not fully match it), yet it is not echoed verbatim: the unanchored search
matches from position 1 and the program emits `a:0:0: b` instead. -/
theorem c4_dichotomy_cex :
    matchFrom ":/a:b".toList = none
    ∧ processLine ":/a:b".toList none none (pathComponents "/".toList) false
        (fun _ => true) = Except.ok (some "a:0:0: b".toList)
    ∧ processLine ":/a:b".toList none none (pathComponents "/".toList) false
        (fun _ => true) ≠ Except.ok (some ":/a:b".toList) := by
  refine ⟨by decide, by decide, ?_⟩
  have h : processLine ":/a:b".toList none none (pathComponents "/".toList) false
      (fun _ => true) = Except.ok (some "a:0:0: b".toList) := by decide
  rw [h]
  decide

/-- C4 amended: for every input line exactly one of two outcomes occurs — the
unanchored recognition regex finds a (leftmost) match and the line yields
exactly one `GrepLike`, which is then formatted by `write`; or no substring
matches and the line is echoed verbatim. -/
theorem c4_dichotomy_amended (line : List Char) (extra : Option (List Char))
    (hl : Option Matcher) (cwd : List Component) (ce : Bool)
    (fo : List Component → Bool) :
    (∃ sk g, findCaps line = some (sk, g)
        ∧ processLine line extra hl cwd ce fo = GrepLike.write g extra hl cwd ce fo)
    ∨ (findCaps line = none ∧ processLine line extra hl cwd ce fo = Except.ok (some line)) := by
  cases hf : findCaps line with
  | none => exact Or.inr ⟨rfl, processLine_notFound hf extra hl cwd ce fo⟩
  | some pr =>
    obtain ⟨sk, g⟩ := pr
    exact Or.inl ⟨sk, g, rfl, processLine_found hf extra hl cwd ce fo⟩

/-- C5: highlighting is a partition of the message body — for any pattern
whose matches have the shape `captures_iter` guarantees, the emitted unmatched
and matched spans concatenate back to `contents` exactly; with no pattern
configured the body is emitted verbatim, and a pattern with zero matches gives
the same verbatim output. -/
theorem c5_highlight_partition :
    (∀ (re : Matcher) (contents : List Char),
        validMatches contents 0 (re contents) = true →
        spansJoin (renderContents (some re) contents) = contents)
    ∧ (∀ contents : List Char,
        renderContents none contents = [Span.plain contents]
        ∧ spansJoin (renderContents none contents) = contents)
    ∧ ∀ (re : Matcher) (contents : List Char), re contents = [] →
        spansJoin (renderContents (some re) contents) = contents := by
  refine ⟨fun re contents hv => ?_,
    fun contents => ⟨rfl, by simp [spansJoin, renderContents, spanText]⟩,
    fun re contents h0 => ?_⟩
  · have h := hlLoop_join contents (re contents) 0 hv
    simpa [renderContents] using h
  · simp [renderContents, h0, hlLoop, spansJoin, spanText]

/-- Witness for C5: a concrete pattern matching `bc` inside `abcde`
reconstructs the text, and a zero-match pattern is verbatim. -/
theorem c5_highlight_partition_w :
    validMatches "abcde".toList 0 [(1, 3)] = true
    ∧ spansJoin (renderContents (some fun _ => [(1, 3)]) "abcde".toList) = "abcde".toList
    ∧ spansJoin (renderContents (some fun _ => []) "xy".toList) = "xy".toList :=
  ⟨by decide, c5_highlight_partition.1 (fun _ => [(1, 3)]) "abcde".toList (by decide),
    c5_highlight_partition.2.2 (fun _ => []) "xy".toList rfl⟩

/-- C6: with `check_exists` on, a recognized line whose resolved path cannot
be opened is suppressed entirely — no output, no error, and the run continues
with the next line; with `check_exists` off the filter is skipped: the result
does not depend on the filesystem at all (even nonexistent paths are
formatted) and is never a suppression. -/
theorem c6_check_exists (g : GrepLike) (extra : Option (List Char)) (hl : Option Matcher)
    (cwd : List Component) (fo : List Component → Bool) :
    (∀ rel, diff_paths (pathComponents (concatPath g.pfix extra g.filepath)) cwd = some rel →
        fo rel = false → g.write extra hl cwd true fo = Except.ok none)
    ∧ g.write extra hl cwd false fo = g.write extra hl cwd false (fun _ => false)
    ∧ g.write extra hl cwd false fo ≠ Except.ok none
    ∧ ∀ (l : List Char) (rest : List (List Char)),
        processLine l extra hl cwd true fo = Except.ok none →
        runMain (l :: rest) extra hl cwd true fo = runMain rest extra hl cwd true fo := by
  refine ⟨fun rel hrel hfo => ?_, ?_, ?_, fun l rest h => ?_⟩
  · obtain ⟨rs, _, hw⟩ := write_diff_some hl fo hrel
    rw [hw true, hfo]
    simp
  · cases hd : diff_paths (pathComponents (concatPath g.pfix extra g.filepath)) cwd with
    | none => rw [write_diff_none hd, write_diff_none hd]
    | some rel =>
      obtain ⟨rs1, hrs1, hw1⟩ := write_diff_some hl fo hd
      obtain ⟨rs2, hrs2, hw2⟩ := write_diff_some hl (fun _ => false) hd
      rw [hrs1] at hrs2
      obtain rfl := Option.some.inj hrs2
      rw [hw1 false, hw2 false]
      simp
  · cases hd : diff_paths (pathComponents (concatPath g.pfix extra g.filepath)) cwd with
    | none =>
      rw [write_diff_none hd]
      exact fun hc => Except.noConfusion hc
    | some rel =>
      obtain ⟨rs, _, hw⟩ := write_diff_some hl fo hd
      rw [hw false]
      simp
  · simp only [runMain, h]

/-- Witness for C6: `/a` does not open under the oracle, so the recognized
line `/a:1: x` produces nothing and the run moves on. -/
theorem c6_check_exists_w :
    diff_paths (pathComponents (concatPath none none "/a".toList)) (pathComponents "/".toList)
      = some [Component.normal (OsStr.utf8 "a".toList)]
    ∧ GrepLike.write ⟨none, "/a".toList, none, none, "b".toList⟩ none none
        (pathComponents "/".toList) true (fun _ => false) = Except.ok none
    ∧ runMain ["/a:1: x".toList] none none (pathComponents "/".toList) true (fun _ => false)
      = runMain [] none none (pathComponents "/".toList) true (fun _ => false) := by
  have h := c6_check_exists ⟨none, "/a".toList, none, none, "b".toList⟩ none none
    (pathComponents "/".toList) (fun _ => false)
  have h2 := c6_check_exists ⟨none, "/a".toList, some "1".toList, none, "x".toList⟩ none none
    (pathComponents "/".toList) (fun _ => false)
  exact ⟨by decide, h.1 [Component.normal (OsStr.utf8 "a".toList)] (by decide) rfl,
    h2.2.2.2 "/a:1: x".toList [] (by decide)⟩

/-- C7: in the emitted line the row and column render as the literal text `0`
when absent, and otherwise the captured digit text is echoed unchanged — no
numeric parsing, so leading zeros survive (e.g. row `007`, column `0042`). -/
theorem c7_row_col_text (g : GrepLike) (extra : Option (List Char)) (hl : Option Matcher)
    (cwd rel : List Component) (rs : List Char) (fo : List Component → Bool)
    (h1 : diff_paths (pathComponents (concatPath g.pfix extra g.filepath)) cwd = some rel)
    (h2 : pathToStr? rel = some rs) :
    g.write extra hl cwd false fo
      = Except.ok (some (rs ++ [':'] ++ g.row.getD ['0'] ++ [':'] ++ g.column.getD ['0'] ++
          [':', ' '] ++ spansJoin (renderContents hl g.contents)))
    ∧ (g.row = none → g.row.getD ['0'] = ['0'])
    ∧ (∀ r, g.row = some r → g.row.getD ['0'] = r)
    ∧ (g.column = none → g.column.getD ['0'] = ['0'])
    ∧ (∀ r, g.column = some r → g.column.getD ['0'] = r)
    ∧ processLine "/f:007:0042: m".toList none none (pathComponents "/".toList) false
        (fun _ => true) = Except.ok (some "f:007:0042: m".toList)
    ∧ processLine "/note: see above".toList none none (pathComponents "/".toList) false
        (fun _ => true) = Except.ok (some "note:0:0: see above".toList) := by
  obtain ⟨rs2, hrs2, hw⟩ := write_diff_some hl fo h1
  rw [h2] at hrs2
  obtain rfl := Option.some.inj hrs2
  refine ⟨?_, fun h => by rw [h]; rfl, fun r h => by rw [h]; rfl,
    fun h => by rw [h]; rfl, fun r h => by rw [h]; rfl, by decide, by decide⟩
  rw [hw false]
  simp

/-- Witness for C7: a row `01` is echoed as-is and an absent column renders
`0`. -/
theorem c7_row_col_text_w :
    GrepLike.write ⟨none, "/a".toList, some "01".toList, none, "m".toList⟩ none none
        (pathComponents "/".toList) false (fun _ => true)
      = Except.ok (some ("a".toList ++ [':'] ++ (some "01".toList).getD ['0'] ++ [':'] ++
          (none : Option (List Char)).getD ['0'] ++ [':', ' '] ++
          spansJoin (renderContents none "m".toList))) :=
  (c7_row_col_text ⟨none, "/a".toList, some "01".toList, none, "m".toList⟩ none none
    (pathComponents "/".toList) [Component.normal (OsStr.utf8 "a".toList)] "a".toList
    (fun _ => true) (by decide) (by decide)).1

/-- C8: existence filtering is monotonic — with the same lines and
configuration, the output of the run with `check_exists` on is a sublist
(hence a line-by-line subset) of the output of the run with it off. -/
theorem c8_check_monotonic (lines : List (List Char)) (extra : Option (List Char))
    (hl : Option Matcher) (cwd : List Component) (fo : List Component → Bool) :
    List.Sublist (runMain lines extra hl cwd true fo).1
      (runMain lines extra hl cwd false fo).1 := by
  induction lines with
  | nil => exact List.Sublist.refl []
  | cons l rest ih =>
    rcases processLine_check l extra hl cwd fo with ⟨k, h1, h2⟩ | ⟨out, h2, h1 | h1⟩
    · simp only [runMain, h1, h2]
      exact List.Sublist.refl []
    · simp only [runMain, h1, h2]
      exact ih.cons₂ out
    · simp only [runMain, h1, h2]
      exact ih.cons out

/-- C9: recognition is substring-based, not anchored — a line is echoed
verbatim exactly when the pattern matches at no start position; when it does
match, the fields come from the matched suffix only, and the skipped
characters before the leftmost match (here the leading `:` of `:/a:b`) appear
in no field and are not echoed. -/
theorem c9_substring_recognition :
    (∀ (line : List Char) (extra : Option (List Char)) (hl : Option Matcher)
        (cwd : List Component) (ce : Bool) (fo : List Component → Bool),
        findCaps line = none →
          (∀ i, matchFrom (line.drop i) = none)
          ∧ processLine line extra hl cwd ce fo = Except.ok (some line))
    ∧ (∀ (line sk : List Char) (g : GrepLike), findCaps line = some (sk, g) →
        (∃ t, line = sk ++ t ∧ matchFrom t = some g)
        ∧ ∀ (extra : Option (List Char)) (hl : Option Matcher) (cwd : List Component)
            (ce : Bool) (fo : List Component → Bool),
            processLine line extra hl cwd ce fo = GrepLike.write g extra hl cwd ce fo)
    ∧ findCaps ":/a:b".toList = some ([':'], ⟨none, "/a".toList, none, none, "b".toList⟩)
    ∧ processLine ":/a:b".toList none none (pathComponents "/".toList) false (fun _ => true)
      = Except.ok (some "a:0:0: b".toList) :=
  ⟨fun line extra hl cwd ce fo hf =>
      ⟨findCaps_none_matchFrom hf, processLine_notFound hf extra hl cwd ce fo⟩,
    fun line sk g hf =>
      ⟨findCaps_decomp hf, fun extra hl cwd ce fo => processLine_found hf extra hl cwd ce fo⟩,
    by decide, by decide⟩

/-- Witness for C9: the line `x` has no match anywhere and is echoed; the
line `:/a:b` decomposes as the skipped `:` followed by a suffix on which the
pattern matches anchored. -/
theorem c9_substring_recognition_w :
    processLine "x".toList none none [] false (fun _ => false) = Except.ok (some "x".toList)
    ∧ ∃ t, ":/a:b".toList = [':'] ++ t
        ∧ matchFrom t = some ⟨none, "/a".toList, none, none, "b".toList⟩ :=
  ⟨(c9_substring_recognition.1 "x".toList none none [] false (fun _ => false) (by decide)).2,
    (c9_substring_recognition.2.1 ":/a:b".toList [':']
      ⟨none, "/a".toList, none, none, "b".toList⟩ (by decide)).1⟩

/-- C10: the `to_str().unwrap()` on src/main.rs line 44 cannot panic: the
concatenated path is built solely from UTF-8 string fragments, and every
component of a successful `diff_paths` result is one of those fragments or a
literal `..` — even when the current directory itself contains non-UTF-8
components. -/
theorem c10_to_str_total (g : GrepLike) (extra : Option (List Char)) (hl : Option Matcher)
    (cwd : List Component) (ce : Bool) (fo : List Component → Bool) :
    g.write extra hl cwd ce fo ≠ Except.error PanicKind.toStrNone := by
  cases hd : diff_paths (pathComponents (concatPath g.pfix extra g.filepath)) cwd with
  | none =>
    rw [write_diff_none hd]
    decide
  | some rel =>
    obtain ⟨rs, _, hw⟩ := write_diff_some hl fo hd
    rw [hw ce]
    by_cases hce : (ce && !fo rel) = true
    · simp [hce]
    · simp [hce]

end GrepWrapper
